import Mathlib

/-!
Verification development for the Satellite-Calculator repository
(`src/utils/common.py`): the transit-detection and catalog-enumeration
engine.

Times are modelled as rational numbers (fractional days, MJD style):
`TimeObj` is an absolute instant and `TimeDeltaObj` a signed duration,
both carried by `ℚ`.  Fallible computations (Python exceptions) are
modelled with `Option`: `none` is a raised error.
-/

/-- An absolute instant (fractional-day timestamp), as `utils.time_utils.TimeObj`. -/
abbrev TimeObj := ℚ

/-- A signed duration in fractional days, as `utils.time_utils.TimeDeltaObj`. -/
abbrev TimeDeltaObj := ℚ

/-- Modelled from the spec: `get_off_list` lives in `utils/time_utils`, which is
not under `src/`.  Per the spec's Time Grid Builder contract it produces the
ordered sequence of sample instants starting at `start` and spaced by
`step_size`, and it fails if `step <= 0` or `end <= start`.  We realise the
samples as the arithmetic progression `start + k * step` for
`k = 0, …, ⌊(end - start) / step⌋`. -/
def get_off_list (start_time end_time : TimeObj) (step_size : TimeDeltaObj) :
    Option (List TimeObj) :=
  if step_size ≤ 0 ∨ end_time ≤ start_time then
    none
  else
    some ((List.range (((end_time - start_time) / step_size).floor.toNat + 1)).map
      (fun (k : ℕ) => start_time + (k : ℚ) * step_size))

/-- Embeds `make_bounded_time_list` (src/utils/common.py, lines 21–35): take the
raw sample list, keep only samples strictly between the bounds, then prepend
`start` and append `end`.  An error raised by `get_off_list` propagates. -/
def make_bounded_time_list (start_time end_time : TimeObj) (step_size : TimeDeltaObj) :
    Option (List TimeObj) :=
  (get_off_list start_time end_time step_size).map (fun raw =>
    let time_list := raw.filter (fun x => decide (start_time < x) && decide (x < end_time))
    start_time :: (time_list ++ [end_time]))

/-- C4: the Time Grid Builder fails — the call returns an error immediately,
with no internal retry — whenever `step ≤ 0` or `end ≤ start`. -/
theorem make_bounded_time_list_invalid_input_fails
    (start_time end_time : TimeObj) (step_size : TimeDeltaObj)
    (h : step_size ≤ 0 ∨ end_time ≤ start_time) :
    make_bounded_time_list start_time end_time step_size = none := by
  unfold make_bounded_time_list get_off_list
  rw [if_pos h]
  rfl

/-- Witness for C4 at a concrete invalid input (`step = 0`). -/
theorem make_bounded_time_list_invalid_input_fails_witness :
    make_bounded_time_list 0 5 0 = none :=
  make_bounded_time_list_invalid_input_fails 0 5 0 (Or.inl le_rfl)

/-- Elements kept by the interior filter of the Time Grid Builder lie strictly
between the bounds. -/
theorem mem_interior_filter {s e : TimeObj} {raw : List TimeObj} {x : TimeObj}
    (hx : x ∈ raw.filter (fun y => decide (s < y) && decide (y < e))) :
    s < x ∧ x < e := by
  have := List.mem_filter.mp hx
  simpa using this.2

/-- The raw sample list produced by `get_off_list` on valid input is strictly
increasing. -/
theorem raw_samples_sorted (s : TimeObj) (step : TimeDeltaObj) (hstep : 0 < step) (n : ℕ) :
    ((List.range n).map (fun (k : ℕ) => s + (k : ℚ) * step)).Pairwise (· < ·) := by
  refine (List.pairwise_map).mpr ?_
  refine (List.pairwise_lt_range n).imp ?_
  intro a b hab
  have : (a : ℚ) * step < (b : ℚ) * step :=
    mul_lt_mul_of_pos_right (by exact_mod_cast hab) hstep
  linarith

/-- C5: for valid input the Time Grid Builder output begins with `start`, ends
with `end`, contains each bound exactly once, keeps every intermediate sample
strictly inside the bounds, has no duplicates, and is strictly increasing. -/
theorem make_bounded_time_list_valid_grid
    (start_time end_time : TimeObj) (step_size : TimeDeltaObj)
    (hs : start_time < end_time) (hstep : 0 < step_size) :
    ∃ l, make_bounded_time_list start_time end_time step_size = some l ∧
      l.head? = some start_time ∧
      l.getLast? = some end_time ∧
      l.count start_time = 1 ∧
      l.count end_time = 1 ∧
      (∀ x ∈ l, x ≠ start_time → x ≠ end_time → start_time < x ∧ x < end_time) ∧
      l.Nodup ∧
      l.Sorted (· < ·) := by
  have hvalid : ¬ (step_size ≤ 0 ∨ end_time ≤ start_time) := by
    push_neg
    exact ⟨hstep, hs⟩
  set raw : List TimeObj :=
    (List.range (((end_time - start_time) / step_size).floor.toNat + 1)).map
      (fun (k : ℕ) => start_time + (k : ℚ) * step_size) with hraw
  set interior : List TimeObj :=
    raw.filter (fun x => decide (start_time < x) && decide (x < end_time)) with hint
  have hmk : make_bounded_time_list start_time end_time step_size =
      some (start_time :: (interior ++ [end_time])) := by
    unfold make_bounded_time_list get_off_list
    rw [if_neg hvalid]
    rfl
  have hpair : (start_time :: (interior ++ [end_time])).Pairwise (· < ·) := by
    refine List.pairwise_cons.mpr ⟨?_, ?_⟩
    · intro b hb
      rcases List.mem_append.mp hb with h | h
      · exact (mem_interior_filter h).1
      · have : b = end_time := by simpa using h
        rw [this]; exact hs
    · rw [List.pairwise_append]
      refine ⟨List.Pairwise.filter _ (raw_samples_sorted _ _ hstep _), by simp, ?_⟩
      intro a ha b hb
      have : b = end_time := by simpa using hb
      rw [this]
      exact (mem_interior_filter ha).2
  refine ⟨_, hmk, rfl, ?_, ?_, ?_, ?_, ?_, ?_⟩
  · show (start_time :: interior ++ [end_time]).getLast? = some end_time
    rw [show start_time :: interior ++ [end_time] = (start_time :: interior) ++ [end_time] from rfl]
    exact List.getLast?_concat _
  · -- count of start
    have h1 : start_time ∉ interior ++ [end_time] := by
      intro hmem
      rcases List.mem_append.mp hmem with h | h
      · exact absurd (mem_interior_filter h).1 (lt_irrefl _)
      · have : start_time = end_time := by simpa using h
        exact absurd this (ne_of_lt hs)
    rw [List.count_cons_self, List.count_eq_zero.mpr h1]
  · -- count of end
    have h1 : end_time ∉ interior := fun hmem =>
      absurd (mem_interior_filter hmem).2 (lt_irrefl _)
    rw [List.count_cons_of_ne (ne_of_gt hs), List.count_append,
      List.count_eq_zero.mpr h1]
    simp
  · -- intermediate samples strictly between the bounds
    intro x hx hxs hxe
    rcases List.mem_cons.mp hx with h | h
    · exact absurd h hxs
    rcases List.mem_append.mp h with h | h
    · exact mem_interior_filter h
    · exact absurd (by simpa using h) hxe
  · -- no duplicates, via strict sortedness
    exact hpair.imp (fun hab => ne_of_lt hab)
  · -- strictly increasing
    exact hpair

/-- Witness for C5 at the concrete valid input `start = 0`, `end = 1`,
`step = 1/2`. -/
theorem make_bounded_time_list_valid_grid_witness :
    ∃ l, make_bounded_time_list 0 1 (1/2) = some l ∧
      l.head? = some 0 ∧
      l.getLast? = some 1 ∧
      l.count 0 = 1 ∧
      l.count 1 = 1 ∧
      (∀ x ∈ l, x ≠ 0 → x ≠ 1 → 0 < x ∧ x < 1) ∧
      l.Nodup ∧
      l.Sorted (· < ·) :=
  make_bounded_time_list_valid_grid 0 1 (1/2) (by norm_num) (by norm_num)

/-- Embeds `DayTransits` (utils/transit): a single observable pass with its
start instant (required), its end instant (null until a SET event is matched),
and its recorded culmination instants.  The observatory/satellite reference and
the altitude threshold carried by the Python object play no role in the
matching algorithm and are omitted. -/
structure DayTransits where
  start : TimeObj
  endTime : Option TimeObj
  culminations : List TimeObj
deriving DecidableEq

/-- A raw propagator event: an instant paired with a flag
(0 = rise, 1 = culminate, 2 = set). -/
abbrev RawEvent := TimeObj × ℕ

/-- The SET-eligibility test of `find_sat_events` (src/utils/common.py,
lines 96–99): the transit's end is still null or strictly earlier than the SET
instant, and its start is strictly before the SET instant. -/
def setMatches (T : DayTransits) (t : TimeObj) : Bool :=
  (match T.endTime with
   | none => true
   | some e => decide (e < t)) && decide (T.start < t)

/-- Overwrite the transit's end with the SET instant (line 100). -/
def closeTransit (T : DayTransits) (t : TimeObj) : DayTransits :=
  { T with endTime := some t }

/-- Number of transits currently eligible for the SET instant `t`. -/
def matchCount (ts : List DayTransits) (t : TimeObj) : ℕ :=
  ts.countP (fun T => setMatches T t)

/-- A transit just closed at `t` is no longer eligible for `t`. -/
theorem setMatches_closeTransit (T : DayTransits) (t : TimeObj) :
    setMatches (closeTransit T t) t = false := by
  simp [setMatches, closeTransit]

/-- Replacing an element changes `countP` by the eligibility of the old and new
elements. -/
theorem countP_set_general {α : Type} (p : α → Bool) :
    ∀ (l : List α) (i : ℕ) (x : α) (h : i < l.length),
      (l.set i x).countP p + (if p l[i] then 1 else 0) =
        l.countP p + (if p x then 1 else 0) := by
  intro l
  induction l with
  | nil => intro i x h; exact absurd h (by simp)
  | cons a l ih =>
    intro i x h
    cases i with
    | zero => simp [List.countP_cons]; omega
    | succ i =>
      have hi : i < l.length := by simpa using h
      have := ih i x hi
      simp only [List.set_cons_succ, List.countP_cons, List.getElem_cons_succ] at *
      omega

/-- Termination measure of the SET-matching `while` loop: the number of still
eligible transits weighted by the list length, plus the distance of the scan
index from the end of the list. -/
def loopMeasure (ts : List DayTransits) (t : TimeObj) (i : ℕ) : ℕ :=
  matchCount ts t * (ts.length + 1) + (ts.length - i)

/-- A successful end assignment strictly decreases the loop measure. -/
theorem loopMeasure_close_lt {ts : List DayTransits} {t : TimeObj} {i : ℕ}
    (h : i < ts.length) (hm : setMatches ts[i] t = true) :
    loopMeasure (ts.set i (closeTransit ts[i] t)) t 0 < loopMeasure ts t i := by
  have hlen : (ts.set i (closeTransit ts[i] t)).length = ts.length :=
    List.length_set ts i _
  have hcount := countP_set_general (fun T => setMatches T t) ts i
    (closeTransit ts[i] t) h
  rw [setMatches_closeTransit, hm] at hcount
  norm_num at hcount
  unfold loopMeasure matchCount
  rw [hlen]
  have he : ts.countP (fun T => setMatches T t) =
      (ts.set i (closeTransit ts[i] t)).countP (fun T => setMatches T t) + 1 := by
    omega
  rw [he]
  have hx : ((ts.set i (closeTransit ts[i] t)).countP (fun T => setMatches T t) + 1) *
      (ts.length + 1) =
      (ts.set i (closeTransit ts[i] t)).countP (fun T => setMatches T t) *
        (ts.length + 1) + (ts.length + 1) := by
    ring
  rw [hx]
  omega

/-- Advancing the scan index strictly decreases the loop measure. -/
theorem loopMeasure_succ_lt {ts : List DayTransits} {t : TimeObj} {i : ℕ}
    (h : i < ts.length) : loopMeasure ts t (i + 1) < loopMeasure ts t i := by
  unfold loopMeasure
  omega

/-- Embeds the SET-matching `while` loop of `find_sat_events` (lines 94–103):
scan from index `i`; on a successful end assignment restart from index 0;
otherwise advance.  Termination: each assignment strictly decreases the number
of eligible transits. -/
def setLoop (ts : List DayTransits) (t : TimeObj) (i : ℕ) : List DayTransits :=
  if h : i < ts.length then
    if setMatches ts[i] t then
      setLoop (ts.set i (closeTransit ts[i] t)) t 0
    else
      setLoop ts t (i + 1)
  else
    ts
termination_by loopMeasure ts t i
decreasing_by
  · exact loopMeasure_close_lt h (by assumption)
  · exact loopMeasure_succ_lt h

/-- The per-transit effect of one SET instant: close the transit if it is
eligible, otherwise leave it unchanged. -/
def closeIfMatches (t : TimeObj) (T : DayTransits) : DayTransits :=
  if setMatches T t then closeTransit T t else T

/-- The restart-from-zero SET scan is equivalent to one independent
left-to-right pass: provided every index below the scan position is
ineligible, the loop closes exactly the eligible transits. -/
theorem setLoop_eq_map :
    ∀ (ts : List DayTransits) (t : TimeObj) (i : ℕ),
      (∀ j, j < i → ∀ T, ts[j]? = some T → setMatches T t = false) →
      setLoop ts t i = ts.map (closeIfMatches t) := by
  intro ts t i
  induction ts, t, i using setLoop.induct with
  | case1 ts t i h hm ih =>
    intro _
    rw [setLoop, dif_pos h, if_pos hm]
    rw [ih (by intro j hj; omega)]
    rw [List.map_set]
    have h1 : closeIfMatches t (closeTransit ts[i] t) = closeTransit ts[i] t := by
      simp [closeIfMatches, setMatches_closeTransit]
    rw [h1]
    apply List.ext_getElem?
    intro n
    by_cases hn : n = i
    · subst hn
      rw [List.getElem?_set_self (by simpa using h), List.getElem?_map,
        List.getElem?_eq_getElem h]
      simp [closeIfMatches, hm]
    · rw [List.getElem?_set_ne (fun hc => hn hc.symm)]
  | case2 ts t i h hm ih =>
    intro hpre
    rw [setLoop, dif_pos h, if_neg (by simpa using hm)]
    apply ih
    intro j hj T hT
    rcases Nat.lt_or_ge j i with hji | hji
    · exact hpre j hji T hT
    · have hji' : j = i := by omega
      subst hji'
      rw [List.getElem?_eq_getElem h] at hT
      cases hT
      simpa using hm
  | case3 ts t i h =>
    intro hpre
    rw [setLoop, dif_neg h]
    apply List.ext_getElem?
    intro n
    rw [List.getElem?_map]
    cases hn : ts[n]? with
    | none => rfl
    | some T =>
      have hlt : n < ts.length := by
        by_contra hc
        rw [List.getElem?_eq_none (by omega)] at hn
        cases hn
      have := hpre n (by omega) T hn
      simp [closeIfMatches, this]

/-- First phase of `find_sat_events` (lines 85–89): open a new transit, with
null end and no culminations, for every RISE event, in input order. -/
def openTransits (events : List RawEvent) : List DayTransits :=
  events.foldl
    (fun acc e =>
      if e.2 = 0 then acc ++ [{ start := e.1, endTime := none, culminations := [] }] else acc)
    []

/-- Second phase of `find_sat_events` (lines 91–103): for every SET event, in
input order, run the restart-from-zero scan over the transit list. -/
def closeTransits (ts : List DayTransits) (events : List RawEvent) : List DayTransits :=
  events.foldl (fun acc e => if e.2 = 2 then setLoop acc e.1 0 else acc) ts

/-- Modelled from the spec: `DayTransits.add` lives in `utils/transit`, which is
not under `src/`.  Per the spec (§4.2 step 3 and §9) the observed behavior
attaches the culmination instant to the transit unconditionally, with no
containment check. -/
def DayTransits.add (T : DayTransits) (t : TimeObj) : DayTransits :=
  { T with culminations := T.culminations ++ [t] }

/-- Third phase of `find_sat_events` (lines 105–108): attach every CULMINATE
event to every transit. -/
def addCulminations (ts : List DayTransits) (events : List RawEvent) : List DayTransits :=
  ts.map (fun T => events.foldl (fun acc e => if e.2 = 1 then acc.add e.1 else acc) T)

/-- Embeds `find_sat_events` (src/utils/common.py, lines 73–110) as a function
of the raw event stream delivered by the external propagator. -/
def find_sat_events (events : List RawEvent) : List DayTransits :=
  addCulminations (closeTransits (openTransits events) events) events

/-- The RISE phase opens exactly one transit per RISE event, in input order. -/
theorem openTransits_eq (events : List RawEvent) :
    openTransits events =
      (events.filter (fun e => e.2 = 0)).map
        (fun e => { start := e.1, endTime := none, culminations := [] }) := by
  have key : ∀ (evs : List RawEvent) (acc : List DayTransits),
      evs.foldl
        (fun acc e =>
          if e.2 = 0 then acc ++ [{ start := e.1, endTime := none, culminations := [] }] else acc)
        acc =
      acc ++ (evs.filter (fun e => e.2 = 0)).map
        (fun e => { start := e.1, endTime := none, culminations := [] }) := by
    intro evs
    induction evs with
    | nil => intro acc; simp
    | cons e evs ih =>
      intro acc
      by_cases he : e.2 = 0
      · simp only [List.foldl_cons, List.filter_cons, he, if_pos, ih]
        simp
      · simp only [List.foldl_cons, List.filter_cons, if_neg he, ih]
        simp [he]
  simpa using key events []

/-- The SET phase is the fold of the scan over the SET instants in their
original input order. -/
theorem closeTransits_eq (ts : List DayTransits) (events : List RawEvent) :
    closeTransits ts events =
      ((events.filter (fun e => e.2 = 2)).map (fun e => e.1)).foldl
        (fun acc t => setLoop acc t 0) ts := by
  induction events generalizing ts with
  | nil => rfl
  | cons e evs ih =>
    by_cases he : e.2 = 2
    · simp only [closeTransits, List.foldl_cons, List.filter_cons, he, if_pos,
        List.map_cons] at *
      simp [ih, he]
    · simp only [closeTransits, List.foldl_cons, List.filter_cons, if_neg he,
        List.map_cons] at *
      simp [ih, he]

/-- The culmination phase never changes a transit's start or end. -/
theorem addCulminations_start_end (ts : List DayTransits) (events : List RawEvent) :
    (addCulminations ts events).map (fun T => (T.start, T.endTime)) =
      ts.map (fun T => (T.start, T.endTime)) := by
  have key : ∀ (evs : List RawEvent) (T : DayTransits),
      ((evs.foldl (fun acc e => if e.2 = 1 then acc.add e.1 else acc) T).start,
        (evs.foldl (fun acc e => if e.2 = 1 then acc.add e.1 else acc) T).endTime) =
      (T.start, T.endTime) := by
    intro evs
    induction evs with
    | nil => intro T; rfl
    | cons e evs ih =>
      intro T
      by_cases he : e.2 = 1
      · simp only [List.foldl_cons, if_pos he]
        rw [ih]
        rfl
      · simp only [List.foldl_cons, if_neg he]
        exact ih T
  unfold addCulminations
  rw [List.map_map]
  apply List.map_congr_left
  intro T _
  exact key events T

/-- If no transit in the list is eligible for the SET instant, the one-pass
closing map leaves the list unchanged. -/
theorem map_closeIfMatches_eq_self {ts : List DayTransits} {t : TimeObj}
    (h : ∀ T ∈ ts, setMatches T t = false) :
    ts.map (closeIfMatches t) = ts := by
  conv_rhs => rw [← List.map_id ts]
  apply List.map_congr_left
  intro T hT
  simp [closeIfMatches, h T hT]

/-- C1 counterexample, on the chronologically ordered input
`[RISE@0, SET@5, SET@10]`.  The first SET (5) closes the transit at end 5.
For the second SET (10) the claim's eligibility test asks for an end still
null or *later* than 10; the transit's end 5 is neither, so per the claim the
SET@10 is silently dropped and the final end stays 5.  The code instead tests
`end.time < test_time_obj` (end *earlier* than the SET instant), so SET@10 is
eligible and overwrites the end to 10. -/
theorem transit_matcher_set_claim_counterexample :
    (find_sat_events [((0 : ℚ), 0), ((5 : ℚ), 2), ((10 : ℚ), 2)]).map
      (fun T => (T.start, T.endTime)) = [(0, some 10)] ∧
    (find_sat_events [((0 : ℚ), 0), ((5 : ℚ), 2), ((10 : ℚ), 2)]).map
      (fun T => (T.start, T.endTime)) ≠ [(0, some 5)] := by
  have hopen : openTransits [((0 : ℚ), 0), ((5 : ℚ), 2), ((10 : ℚ), 2)] =
      [⟨0, none, []⟩] := by decide
  have hloop1 : setLoop [(⟨0, none, []⟩ : DayTransits)] 5 0 = [⟨0, some 5, []⟩] := by
    rw [setLoop_eq_map _ 5 0 (fun j hj => absurd hj (Nat.not_lt_zero j))]
    decide
  have hloop2 : setLoop [(⟨0, some 5, []⟩ : DayTransits)] 10 0 = [⟨0, some 10, []⟩] := by
    rw [setLoop_eq_map _ 10 0 (fun j hj => absurd hj (Nat.not_lt_zero j))]
    decide
  have hclose : closeTransits [(⟨0, none, []⟩ : DayTransits)]
      [((0 : ℚ), 0), ((5 : ℚ), 2), ((10 : ℚ), 2)] = [⟨0, some 10, []⟩] := by
    rw [closeTransits_eq]
    have hsets : (([((0 : ℚ), 0), ((5 : ℚ), 2), ((10 : ℚ), 2)].filter
        (fun e => e.2 = 2)).map (fun e => e.1)) = [5, 10] := by decide
    rw [hsets]
    simp only [List.foldl_cons, List.foldl_nil]
    rw [hloop1, hloop2]
  constructor
  · unfold find_sat_events
    rw [hopen, hclose]
    decide
  · unfold find_sat_events
    rw [hopen, hclose]
    decide

/-- C1 as amended: the Transit Matcher processes SET events in their original
input order (the flag-2 subsequence of the event stream); for each SET instant
the scan, started from index 0, overwrites the end of the first transit in
creation order that is eligible — end still null, or previously assigned end
strictly *earlier* than the SET instant, in both cases with start strictly
before the SET instant; and a SET event for which no transit is eligible is
dropped and closes nothing. -/
theorem transit_matcher_set_assignment (ts : List DayTransits) (t : TimeObj) :
    (∀ events : List RawEvent,
      closeTransits ts events =
        ((events.filter (fun e => e.2 = 2)).map (fun e => e.1)).foldl
          (fun acc u => setLoop acc u 0) ts) ∧
    ((∀ T ∈ ts, setMatches T t = false) → setLoop ts t 0 = ts) ∧
    (∀ (k : ℕ) (T : DayTransits), ts[k]? = some T → setMatches T t = true →
      (∀ (j : ℕ) (T' : DayTransits), j < k → ts[j]? = some T' → setMatches T' t = false) →
      (setLoop ts t 0)[k]? = some (closeTransit T t)) := by
  refine ⟨fun events => closeTransits_eq ts events, ?_, ?_⟩
  · intro h
    rw [setLoop_eq_map ts t 0 (fun j hj => absurd hj (Nat.not_lt_zero j))]
    exact map_closeIfMatches_eq_self h
  · intro k T hk hm _
    rw [setLoop_eq_map ts t 0 (fun j hj => absurd hj (Nat.not_lt_zero j))]
    rw [List.getElem?_map, hk]
    simp [closeIfMatches, hm]

/-- Witness for C1 at a concrete input: transits started at 1 and 3, SET
instant 2; the first transit is eligible and gets closed at 2. -/
theorem transit_matcher_set_assignment_witness :
    (setLoop [⟨1, none, []⟩, ⟨3, none, []⟩] 2 0)[0]? =
      some (closeTransit ⟨1, none, []⟩ 2) :=
  (transit_matcher_set_assignment [⟨1, none, []⟩, ⟨3, none, []⟩] 2).2.2 0
    ⟨1, none, []⟩ rfl (by decide)
    (fun j T' hj _ => absurd hj (Nat.not_lt_zero j))

/-- C10: with two RISE events strictly before the single SET event, the
restart-from-zero scan assigns the same SET instant as the end of both
transits. -/
theorem set_event_closes_multiple_transits (events : List RawEvent) (r1 r2 s : TimeObj)
    (h0 : (events.filter (fun e => e.2 = 0)).map (fun e => e.1) = [r1, r2])
    (h2 : (events.filter (fun e => e.2 = 2)).map (fun e => e.1) = [s])
    (hr1 : r1 < s) (hr2 : r2 < s) :
    (find_sat_events events).map (fun T => (T.start, T.endTime)) =
      [(r1, some s), (r2, some s)] := by
  unfold find_sat_events
  rw [addCulminations_start_end, closeTransits_eq, openTransits_eq]
  have hopen : ((events.filter (fun e => e.2 = 0)).map
      (fun e => ({ start := e.1, endTime := none, culminations := [] } : DayTransits))) =
      [⟨r1, none, []⟩, ⟨r2, none, []⟩] := by
    have : (fun (e : RawEvent) =>
        ({ start := e.1, endTime := none, culminations := [] } : DayTransits)) =
        (fun (u : TimeObj) => ({ start := u, endTime := none, culminations := [] } :
          DayTransits)) ∘ (fun (e : RawEvent) => e.1) := rfl
    rw [this, ← List.map_map, h0]
    rfl
  rw [hopen, h2]
  simp only [List.foldl_cons, List.foldl_nil]
  rw [setLoop_eq_map _ s 0 (fun j hj => absurd hj (Nat.not_lt_zero j))]
  have hm1 : setMatches ⟨r1, none, []⟩ s = true := by
    simp [setMatches, hr1]
  have hm2 : setMatches ⟨r2, none, []⟩ s = true := by
    simp [setMatches, hr2]
  simp [closeIfMatches, hm1, hm2, closeTransit]

/-- Witness for C10 at the concrete event stream
`[RISE@0, RISE@1, SET@5]`. -/
theorem set_event_closes_multiple_transits_witness :
    (find_sat_events [((0 : ℚ), 0), ((1 : ℚ), 0), ((5 : ℚ), 2)]).map
      (fun T => (T.start, T.endTime)) = [(0, some 5), (1, some 5)] :=
  set_event_closes_multiple_transits [((0 : ℚ), 0), ((1 : ℚ), 0), ((5 : ℚ), 2)]
    0 1 5 (by decide) (by decide) (by norm_num) (by norm_num)

/-- C3: evaluating `find_sat_events` at the event stream
`[RISE@0, SET@5, CULMINATE@7]` shows the culmination instant 7 being attached
to the transit [0, 5] although it does not lie strictly between the transit's
start and end: the code attaches every culmination to every transit
unconditionally, violating the stated invariant. -/
theorem culmination_attached_outside_interval :
    find_sat_events [((0 : ℚ), 0), ((5 : ℚ), 2), ((7 : ℚ), 1)] =
      [{ start := 0, endTime := some 5, culminations := [7] }] ∧
    ¬ ((7 : ℚ) < 5) := by
  constructor
  · have hopen : openTransits [((0 : ℚ), 0), ((5 : ℚ), 2), ((7 : ℚ), 1)] =
        [⟨0, none, []⟩] := by decide
    have hloop : setLoop [(⟨0, none, []⟩ : DayTransits)] 5 0 = [⟨0, some 5, []⟩] := by
      rw [setLoop_eq_map _ 5 0 (fun j hj => absurd hj (Nat.not_lt_zero j))]
      decide
    have hclose : closeTransits [(⟨0, none, []⟩ : DayTransits)]
        [((0 : ℚ), 0), ((5 : ℚ), 2), ((7 : ℚ), 1)] = [⟨0, some 5, []⟩] := by
      rw [closeTransits_eq]
      have hsets : (([((0 : ℚ), 0), ((5 : ℚ), 2), ((7 : ℚ), 1)].filter
          (fun e => e.2 = 2)).map (fun e => e.1)) = [5] := by decide
      rw [hsets]
      simpa using hloop
    unfold find_sat_events
    rw [hopen, hclose]
    decide
  · norm_num

/-- Fuel-indexed faithful rendering of the SET-matching `while` loop: each
iteration consumes one unit of fuel, and exhausted fuel is reported as `none`
(non-termination within the budget). -/
def setLoopFuel : ℕ → List DayTransits → TimeObj → ℕ → Option (List DayTransits)
  | 0, _, _, _ => none
  | n + 1, ts, t, i =>
    if h : i < ts.length then
      if setMatches ts[i] t then
        setLoopFuel n (ts.set i (closeTransit ts[i] t)) t 0
      else
        setLoopFuel n ts t (i + 1)
    else
      some ts

/-- Fuel-indexed rendering of the whole matcher, running every SET scan on the
given fuel budget. -/
def find_sat_events_fuel (fuel : ℕ) (events : List RawEvent) : Option (List DayTransits) :=
  (events.foldlM
    (fun acc (e : RawEvent) => if e.2 = 2 then setLoopFuel fuel acc e.1 0 else some acc)
    (openTransits events)).map
    (fun ts => addCulminations ts events)

/-- With fuel above the loop measure, the fuel-indexed scan terminates and
computes the total scan. -/
theorem setLoopFuel_eq :
    ∀ (n : ℕ) (ts : List DayTransits) (t : TimeObj) (i : ℕ),
      loopMeasure ts t i < n → setLoopFuel n ts t i = some (setLoop ts t i) := by
  intro n
  induction n with
  | zero => intro ts t i h; exact absurd h (Nat.not_lt_zero _)
  | succ n ih =>
    intro ts t i h
    rw [setLoopFuel, setLoop]
    by_cases hlt : i < ts.length
    · rw [dif_pos hlt, dif_pos hlt]
      by_cases hm : setMatches ts[i] t
      · rw [if_pos hm, if_pos hm]
        exact ih _ t 0 (by
          have := loopMeasure_close_lt hlt hm
          omega)
      · rw [if_neg hm, if_neg hm]
        exact ih ts t (i + 1) (by
          have : loopMeasure ts t (i + 1) < loopMeasure ts t i := loopMeasure_succ_lt hlt
          omega)
    · rw [dif_neg hlt, dif_neg hlt]

/-- The SET scan started at index 0 preserves the length of the transit
list. -/
theorem length_setLoop_zero (ts : List DayTransits) (t : TimeObj) :
    (setLoop ts t 0).length = ts.length := by
  rw [setLoop_eq_map ts t 0 (fun j hj => absurd hj (Nat.not_lt_zero j))]
  exact List.length_map ts _

/-- The loop measure of a scan started at index 0 is below the squared-length
bound. -/
theorem loopMeasure_lt_sq (ts : List DayTransits) (t : TimeObj) :
    loopMeasure ts t 0 < (ts.length + 1) * (ts.length + 1) := by
  unfold loopMeasure
  have h1 : matchCount ts t ≤ ts.length := List.countP_le_length _
  have h2 : matchCount ts t * (ts.length + 1) ≤ ts.length * (ts.length + 1) :=
    Nat.mul_le_mul_right _ h1
  have h3 : (ts.length + 1) * (ts.length + 1) = ts.length * (ts.length + 1) + ts.length + 1 := by
    ring
  omega

/-- With a fuel budget of at least the squared-length bound, the fuel-indexed
SET phase computes the total SET phase. -/
theorem closeTransits_fuel_eq (events : List RawEvent) :
    ∀ (ts : List DayTransits) (n : ℕ), (ts.length + 1) * (ts.length + 1) ≤ n →
      events.foldlM
        (fun acc (e : RawEvent) => if e.2 = 2 then setLoopFuel n acc e.1 0 else some acc)
        ts = some (closeTransits ts events) := by
  induction events with
  | nil => intro ts n _; rfl
  | cons e evs ih =>
    intro ts n hn
    by_cases he : e.2 = 2
    · rw [List.foldlM_cons]
      rw [if_pos he]
      rw [setLoopFuel_eq n ts e.1 0 (lt_of_lt_of_le (loopMeasure_lt_sq ts e.1) hn)]
      show evs.foldlM _ (setLoop ts e.1 0) = _
      rw [ih (setLoop ts e.1 0) n (by rw [length_setLoop_zero]; exact hn)]
      unfold closeTransits
      rw [List.foldl_cons, if_pos he]
    · rw [List.foldlM_cons, if_neg he]
      show evs.foldlM _ ts = _
      rw [ih ts n hn]
      unfold closeTransits
      rw [List.foldl_cons, if_neg he]

/-- C7: for every finite raw event stream there is a fuel budget on which the
fuel-indexed matcher terminates and returns exactly the value of the total
matcher — the SET-matching scan with its restart-from-zero policy always
terminates. -/
theorem find_sat_events_terminates (events : List RawEvent) :
    ∃ fuel : ℕ, find_sat_events_fuel fuel events = some (find_sat_events events) := by
  refine ⟨(events.length + 1) * (events.length + 1), ?_⟩
  unfold find_sat_events_fuel find_sat_events
  have hlen : (openTransits events).length ≤ events.length := by
    rw [openTransits_eq]
    calc ((events.filter (fun e => e.2 = 0)).map
        (fun e => ({ start := e.1, endTime := none, culminations := [] } : DayTransits))).length
        = (events.filter (fun e => e.2 = 0)).length := List.length_map _ _
      _ ≤ events.length := List.length_filter_le _ _
  rw [closeTransits_fuel_eq events (openTransits events) _
    (Nat.mul_le_mul (by omega) (by omega))]
  rfl

/-- Embeds the tracked-object record (skyfield `EarthSatellite`): a name, the
element-set epoch `model.jdsatepoch` (a fractional-day timestamp; the `epoch`
attribute denotes the same instant), and the rest of the element set,
abstracted as an opaque tag because the algorithms never inspect it. -/
structure EarthSatellite where
  name : String
  jdsatepoch : ℚ
  elems : ℕ
deriving DecidableEq

/-- The deduplication key of `_make_active_sats` (line 179):
`sat.name + "_" + str(sat.model.jdsatepoch)`. -/
def satKey (s : EarthSatellite) : String :=
  s.name ++ "_" ++ toString s.jdsatepoch

/-- Python-dict insertion (insertion-ordered map semantics): writing to an
existing key replaces its value in place, writing to a fresh key appends it. -/
def dictInsert (m : List (String × EarthSatellite)) (k : String) (v : EarthSatellite) :
    List (String × EarthSatellite) :=
  match m with
  | [] => [(k, v)]
  | (k', v') :: rest =>
    if k' = k then (k', v) :: rest else (k', v') :: dictInsert rest k v

/-- Embeds `_make_active_sats` (src/utils/common.py, lines 164–181) applied to
the concatenation of all sources: the dict comprehension keyed by `satKey`
(last record for a key wins) followed by `list(uniq_sats.values())`. -/
def make_active_sats (local_active_sats : List EarthSatellite) : List EarthSatellite :=
  (local_active_sats.foldl (fun m sat => dictInsert m (satKey sat) sat) []).map Prod.snd

/-- Embeds `_make_start_utc` (src/utils/common.py, lines 153–162).  The
external collaborators are parameters: `strptime` models
`datetime.strptime(..., "%Y-%m-%d")` with `none` as the raised `ValueError`,
`get_start_day` models `TimeObj.get_start_day` (truncation to the start of the
UTC day), and `today_utc` is the current instant.  Returns
`(start_utc, end_utc)`. -/
def make_start_utc (strptime : String → Option TimeObj) (get_start_day : TimeObj → TimeObj)
    (today_utc : TimeObj) (start_date : String) (end_days : TimeDeltaObj) :
    TimeObj × TimeObj :=
  (match strptime start_date with
    | some d => get_start_day d
    | none => get_start_day today_utc,
   (match strptime start_date with
    | some d => get_start_day d
    | none => get_start_day today_utc) + end_days)

/-- C9: an unparseable start-date string never fails catalog construction: the
effective start silently becomes the start of the current day and the
effective end is that start plus the horizon length in days. -/
theorem unparseable_start_date_falls_back
    (strptime : String → Option TimeObj) (get_start_day : TimeObj → TimeObj)
    (today_utc : TimeObj) (start_date : String) (end_days : TimeDeltaObj)
    (h : strptime start_date = none) :
    make_start_utc strptime get_start_day today_utc start_date end_days =
      (get_start_day today_utc, get_start_day today_utc + end_days) := by
  unfold make_start_utc
  rw [h]

/-- Witness for C9 at a concrete unparseable date string, with the day-start
truncation instantiated to the identity and today = 7. -/
theorem unparseable_start_date_falls_back_witness :
    make_start_utc (fun _ => none) (fun d => d) 7 "not-a-date" 120 = (7, 7 + 120) :=
  unparseable_start_date_falls_back (fun _ => none) (fun d => d) 7 "not-a-date" 120 rfl

/-- Well-formedness of the insertion-ordered map built by `_make_active_sats`:
every stored record hashes to its key, and the keys are pairwise distinct. -/
def goodMap (m : List (String × EarthSatellite)) : Prop :=
  (∀ p ∈ m, satKey p.2 = p.1) ∧ (m.map Prod.fst).Nodup

/-- The key list after a dict insertion: unchanged for an existing key, the new
key appended otherwise. -/
theorem keys_dictInsert (m : List (String × EarthSatellite)) (k : String)
    (v : EarthSatellite) :
    (dictInsert m k v).map Prod.fst =
      if k ∈ m.map Prod.fst then m.map Prod.fst else m.map Prod.fst ++ [k] := by
  induction m with
  | nil => simp [dictInsert]
  | cons p rest ih =>
    obtain ⟨k', v'⟩ := p
    by_cases hk : k' = k
    · subst hk
      simp [dictInsert]
    · simp only [dictInsert, if_neg hk, List.map_cons, ih]
      by_cases hmem : k ∈ rest.map Prod.fst
      · simp [hmem, hk, Ne.symm hk]
      · simp [hmem, hk, Ne.symm hk]

/-- Dict insertion preserves map well-formedness. -/
theorem goodMap_dictInsert {m : List (String × EarthSatellite)} (h : goodMap m)
    (v : EarthSatellite) : goodMap (dictInsert m (satKey v) v) := by
  obtain ⟨hvals, hkeys⟩ := h
  constructor
  · induction m with
    | nil =>
      intro p hp
      simp only [dictInsert, List.mem_singleton] at hp
      subst hp
      rfl
    | cons q rest ih =>
      obtain ⟨k', v'⟩ := q
      intro p hp
      by_cases hk : k' = satKey v
      · simp only [dictInsert, if_pos hk, List.mem_cons] at hp
        rcases hp with hp | hp
        · subst hp; exact hk.symm
        · exact hvals p (List.mem_cons_of_mem _ hp)
      · simp only [dictInsert, if_neg hk, List.mem_cons] at hp
        rcases hp with hp | hp
        · subst hp; exact hvals (k', v') (List.mem_cons_self _ _)
        · exact ih (fun q hq => hvals q (List.mem_cons_of_mem _ hq))
            (List.Nodup.of_cons (by simpa using hkeys)) p hp
  · rw [keys_dictInsert]
    by_cases hmem : satKey v ∈ m.map Prod.fst
    · simpa [hmem] using hkeys
    · rw [if_neg hmem]
      simp only [List.nodup_append, List.nodup_cons, List.nodup_nil]
      exact ⟨hkeys, by simp, by simpa [List.disjoint_singleton] using hmem⟩

/-- After inserting a record under its own key, that key's slice of the value
list is exactly that record. -/
theorem dictInsert_values_filter_hit {m : List (String × EarthSatellite)}
    (h : goodMap m) {v : EarthSatellite} {k : String} (hv : satKey v = k) :
    ((dictInsert m k v).map Prod.snd).filter (fun x => decide (satKey x = k)) = [v] := by
  obtain ⟨hvals, hkeys⟩ := h
  induction m with
  | nil => simp [dictInsert, List.filter_cons, hv]
  | cons p rest ih =>
    obtain ⟨k', v'⟩ := p
    by_cases hk : k' = k
    · subst hk
      have hkeys' : (k' :: rest.map Prod.fst).Nodup := by simpa using hkeys
      have h3 : k' ∉ rest.map Prod.fst := (List.nodup_cons.mp hkeys').1
      have hrest : (rest.map Prod.snd).filter (fun x => decide (satKey x = k')) = [] := by
        rw [List.filter_eq_nil_iff]
        intro x hx
        obtain ⟨q, hq, hqx⟩ := List.mem_map.mp hx
        have h1 : satKey q.2 = q.1 := hvals q (List.mem_cons_of_mem _ hq)
        have h2 : q.1 ∈ rest.map Prod.fst := List.mem_map.mpr ⟨q, hq, rfl⟩
        simp only [decide_eq_true_eq]
        rw [← hqx, h1]
        intro hcontra
        exact h3 (hcontra ▸ h2)
      simp only [dictInsert, if_pos rfl, List.map_cons, List.filter_cons, hv]
      simp [List.filter_cons, hv, hrest]
    · have hkeys' : (k' :: rest.map Prod.fst).Nodup := by simpa using hkeys
      simp only [dictInsert, if_neg hk, List.map_cons, List.filter_cons]
      have hv' : satKey v' = k' := hvals (k', v') (List.mem_cons_self _ _)
      have hne' : ¬ (satKey v' = k) := by rw [hv']; exact hk
      simp only [hne', decide_eq_true_eq, if_neg]
      exact ih (fun q hq => hvals q (List.mem_cons_of_mem _ hq))
        (List.nodup_cons.mp hkeys').2

/-- Inserting a record under a different key leaves a key's slice of the value
list unchanged. -/
theorem dictInsert_values_filter_miss {m : List (String × EarthSatellite)}
    (h : goodMap m) {v : EarthSatellite} {k kv : String} (hv : satKey v = kv)
    (hne : kv ≠ k) :
    ((dictInsert m kv v).map Prod.snd).filter (fun x => decide (satKey x = k)) =
      (m.map Prod.snd).filter (fun x => decide (satKey x = k)) := by
  obtain ⟨hvals, hkeys⟩ := h
  induction m with
  | nil =>
    simp [dictInsert, List.filter_cons, hv, hne]
  | cons p rest ih =>
    obtain ⟨k', v'⟩ := p
    by_cases hk : k' = kv
    · subst hk
      have hv' : satKey v' = k' := hvals (k', v') (List.mem_cons_self _ _)
      simp only [dictInsert, if_pos rfl, List.map_cons, List.filter_cons]
      simp [List.filter_cons, hv, hv', hne]
    · have hkeys' : (k' :: rest.map Prod.fst).Nodup := by simpa using hkeys
      simp only [dictInsert, if_neg hk, List.map_cons, List.filter_cons]
      rw [ih (fun q hq => hvals q (List.mem_cons_of_mem _ hq))
        (List.nodup_cons.mp hkeys').2]

/-- If a key never occurs in the remaining input, folding the input into the
map does not change that key's slice of the value list. -/
theorem foldl_dedup_filter_none (k : String) :
    ∀ (l : List EarthSatellite) (m : List (String × EarthSatellite)), goodMap m →
      l.filter (fun x => decide (satKey x = k)) = [] →
      ((l.foldl (fun m s => dictInsert m (satKey s) s) m).map Prod.snd).filter
        (fun x => decide (satKey x = k)) =
      (m.map Prod.snd).filter (fun x => decide (satKey x = k)) := by
  intro l
  induction l with
  | nil => intro m _ _; rfl
  | cons s l ih =>
    intro m hm hf
    simp only [List.filter_cons] at hf
    by_cases hs : satKey s = k
    · simp [hs] at hf
    · simp only [hs, decide_eq_true_eq, if_neg] at hf
      rw [List.foldl_cons]
      rw [ih (dictInsert m (satKey s) s) (goodMap_dictInsert hm s) hf]
      exact dictInsert_values_filter_miss hm rfl hs

/-- If the last input record with key `k` is `s`, the deduplicated value list
restricted to key `k` is exactly `[s]`. -/
theorem foldl_dedup_filter_some (k : String) :
    ∀ (l : List EarthSatellite) (m : List (String × EarthSatellite)), goodMap m →
      ∀ s : EarthSatellite,
      (l.filter (fun x => decide (satKey x = k))).getLast? = some s →
      ((l.foldl (fun m s => dictInsert m (satKey s) s) m).map Prod.snd).filter
        (fun x => decide (satKey x = k)) = [s] := by
  intro l
  induction l with
  | nil => intro m _ s h; simp at h
  | cons s' l ih =>
    intro m hm s h
    rw [List.foldl_cons]
    have hm' : goodMap (dictInsert m (satKey s') s') := goodMap_dictInsert hm s'
    by_cases hs : satKey s' = k
    · subst hs
      rw [List.filter_cons,
        if_pos (show (decide (satKey s' = satKey s')) = true by simp)] at h
      cases hfl : l.filter (fun x => decide (satKey x = satKey s')) with
      | nil =>
        rw [hfl] at h
        simp at h
        subst h
        rw [foldl_dedup_filter_none _ l (dictInsert m (satKey s') s') hm' hfl]
        exact dictInsert_values_filter_hit hm rfl
      | cons f fs =>
        rw [hfl] at h
        rw [List.getLast?_cons_cons, ← hfl] at h
        exact ih (dictInsert m (satKey s') s') hm' s h
    · simp only [List.filter_cons, hs, decide_eq_true_eq, if_neg] at h
      exact ih (dictInsert m (satKey s') s') hm' s h

/-- C8: deduplication is keyed on (name, epoch) — two records with equal name
and equal epoch share the deduplication key — and for every key occurring in
the concatenated input the final catalog holds exactly one record for it: the
last-seen one in concatenation order. -/
theorem dedup_idempotent_last_wins (sats : List EarthSatellite) :
    (∀ s1 s2 : EarthSatellite, s1.name = s2.name → s1.jdsatepoch = s2.jdsatepoch →
      satKey s1 = satKey s2) ∧
    (∀ (k : String) (s : EarthSatellite),
      (sats.filter (fun x => decide (satKey x = k))).getLast? = some s →
      (make_active_sats sats).filter (fun x => decide (satKey x = k)) = [s]) := by
  constructor
  · intro s1 s2 hn he
    unfold satKey
    rw [hn, he]
  · intro k s h
    unfold make_active_sats
    exact foldl_dedup_filter_some k sats [] ⟨by simp, by simp⟩ s h

/-- Witness for C8: two distinct records with the same name and epoch; the
catalog keeps exactly the last one. -/
theorem dedup_idempotent_last_wins_witness :
    (make_active_sats [⟨"A", 1, 0⟩, ⟨"A", 1, 1⟩]).filter
      (fun x => decide (satKey x = satKey ⟨"A", 1, 0⟩)) = [⟨"A", 1, 1⟩] :=
  (dedup_idempotent_last_wins [⟨"A", 1, 0⟩, ⟨"A", 1, 1⟩]).2 (satKey ⟨"A", 1, 0⟩)
    ⟨"A", 1, 1⟩ (by decide)

/-- Adjacent differences of a list of timestamps (`numpy.diff`). -/
def diffs : List ℚ → List ℚ
  | x :: y :: rest => (y - x) :: diffs (y :: rest)
  | _ => []

/-- The epoch order used by the chain branch
(`sorted(sat_list, key=lambda x: x.model.jdsatepoch)`). -/
def satLE (a b : EarthSatellite) : Prop :=
  a.jdsatepoch ≤ b.jdsatepoch

instance : DecidableRel satLE := fun a b =>
  inferInstanceAs (Decidable (a.jdsatepoch ≤ b.jdsatepoch))

/-- Embeds the per-group body of the chain branch of `_make_sat_list`
(src/utils/common.py, lines 204–213): sort the group by epoch ascending, keep
the epochs strictly before the overall end, take adjacent epoch differences
and append the remaining time to the overall end computed from the last kept
epoch (`start_dates[-1]` — an `IndexError`, modelled as `none`, when every
epoch was discarded), then zip starts, durations and records into slots. -/
def chainGroup (end_utc : TimeObj) (sat_list : List EarthSatellite) :
    Option (List (TimeObj × ℚ × EarthSatellite)) :=
  match (((List.insertionSort satLE sat_list).map (fun x => x.jdsatepoch)).filter
      (fun x => decide (x < end_utc))).getLast? with
  | none => none
  | some last =>
    some ((((List.insertionSort satLE sat_list).map (fun x => x.jdsatepoch)).filter
        (fun x => decide (x < end_utc))).zip
      (((diffs (((List.insertionSort satLE sat_list).map (fun x => x.jdsatepoch)).filter
          (fun x => decide (x < end_utc)))) ++ [end_utc - last]).zip
        (List.insertionSort satLE sat_list)))

/-- `defaultdict(list)` grouping by name (lines 199–201): appending a record to
its name's group, creating the group at the end on first appearance. -/
def organizeSatsInsert (m : List (String × List EarthSatellite))
    (sat : EarthSatellite) : List (String × List EarthSatellite) :=
  match m with
  | [] => [(sat.name, [sat])]
  | (k, g) :: rest =>
    if k = sat.name then (k, g ++ [sat]) :: rest
    else (k, g) :: organizeSatsInsert rest sat

/-- Embeds the chain branch of `_make_sat_list` (src/utils/common.py, lines
198–214): group the active records by name in first-appearance order, chain
each group in that order, and concatenate the slots; an error raised in any
group aborts the construction. -/
def make_sat_list (end_utc : TimeObj) (active_sats : List EarthSatellite) :
    Option (List (TimeObj × ℚ × EarthSatellite)) :=
  (active_sats.foldl organizeSatsInsert []).foldlM
    (fun acc g => (chainGroup end_utc g.2).map (fun slots => acc ++ slots)) []

/-- C2 counterexample: a single tracked object whose epoch (10) is at the
overall end date (10), so its whole group is discarded.  Catalog construction
raises (`start_dates[-1]` on the empty list, modelled as `none`) instead of
succeeding with zero slots. -/
theorem chain_group_all_discarded_raises :
    make_sat_list 10 [⟨"A", 10, 0⟩] = none := by decide

/-- C2 amended: a name-group whose every epoch is at or after the overall end
date makes the chain computation fail (empty-list indexing), rather than
contributing zero slots to a successful construction. -/
theorem chainGroup_all_late_fails (end_utc : TimeObj) (group : List EarthSatellite)
    (h : ∀ s ∈ group, end_utc ≤ s.jdsatepoch) :
    chainGroup end_utc group = none := by
  have hfilter : ((List.insertionSort satLE group).map (fun x => x.jdsatepoch)).filter
      (fun x => decide (x < end_utc)) = [] := by
    rw [List.filter_eq_nil_iff]
    intro a ha
    obtain ⟨s, hs, rfl⟩ := List.mem_map.mp ha
    have hmem : s ∈ group := (List.mem_insertionSort satLE).mp hs
    simp only [decide_eq_true_eq, not_lt]
    exact h s hmem
  unfold chainGroup
  rw [hfilter]
  rfl

/-- Witness for the C2 amendment at a concrete all-late group. -/
theorem chainGroup_all_late_fails_witness :
    chainGroup 10 [⟨"B", 12, 1⟩] = none :=
  chainGroup_all_late_fails 10 [⟨"B", 12, 1⟩] (by decide)

/-- `diffs` of an n-element list has n - 1 entries. -/
theorem diffs_length : ∀ l : List ℚ, (diffs l).length = l.length - 1
  | [] => rfl
  | [_] => rfl
  | x :: y :: rest => by
    have := diffs_length (y :: rest)
    simp only [diffs, List.length_cons] at *
    omega

/-- The i-th adjacent difference is the gap between the i-th and (i+1)-th
entries. -/
theorem diffs_getElem? : ∀ (l : List ℚ) (i : ℕ) (x y : ℚ),
    l[i]? = some x → l[i + 1]? = some y → (diffs l)[i]? = some (y - x)
  | [], i, x, y => by intro h _; simp at h
  | [_], i, x, y => by
    intro _ h2
    rw [List.getElem?_cons_succ] at h2
    simp at h2
  | a :: b :: rest, 0, x, y => by
    intro h1 h2
    rw [List.getElem?_cons_zero] at h1
    rw [List.getElem?_cons_succ, List.getElem?_cons_zero] at h2
    cases h1
    cases h2
    show ((b - a) :: diffs (b :: rest))[0]? = some (b - a)
    simp
  | a :: b :: rest, i + 1, x, y => by
    intro h1 h2
    rw [List.getElem?_cons_succ] at h1 h2
    show ((b - a) :: diffs (b :: rest))[i + 1]? = some (y - x)
    rw [List.getElem?_cons_succ]
    exact diffs_getElem? (b :: rest) i x y h1 h2

/-- C6: in chain mode, a nonempty name-group sorted by epoch whose epochs all
lie strictly before the overall end date yields exactly one slot per epoch;
slot starts are the epochs (paired with their records), every non-final slot's
duration is the gap to the next epoch, the final slot's duration is the
remaining time to the overall end, consecutive slots abut exactly, durations
are nonnegative, and the slots tile `[first_epoch, overall_end)`. -/
theorem chain_mode_slots_tile (end_utc : TimeObj) (group : List EarthSatellite)
    (hne : group ≠ [])
    (hsort : group.Sorted satLE)
    (hall : ∀ s ∈ group, s.jdsatepoch < end_utc) :
    ∃ slots : List (TimeObj × ℚ × EarthSatellite),
      chainGroup end_utc group = some slots ∧
      slots.length = group.length ∧
      (∀ i : ℕ, slots[i]?.map (fun p => (p.1, p.2.2)) =
        group[i]?.map (fun s => (s.jdsatepoch, s))) ∧
      (∀ (i : ℕ) (p q : TimeObj × ℚ × EarthSatellite),
        slots[i]? = some p → slots[i + 1]? = some q →
        p.2.1 = q.1 - p.1 ∧ p.1 + p.2.1 = q.1) ∧
      (∀ p : TimeObj × ℚ × EarthSatellite,
        slots[group.length - 1]? = some p →
        p.2.1 = end_utc - p.1 ∧ p.1 + p.2.1 = end_utc) ∧
      (∀ (i : ℕ) (p : TimeObj × ℚ × EarthSatellite), slots[i]? = some p → 0 ≤ p.2.1) ∧
      slots.head?.map (fun p => p.1) = group.head?.map (fun s => s.jdsatepoch) := by
  have hlen_pos : 0 < group.length := List.length_pos.mpr hne
  have hsorted_eq : List.insertionSort satLE group = group := hsort.insertionSort_eq
  have hes_ne : group.map (fun x => x.jdsatepoch) ≠ [] := by
    simpa [List.map_eq_nil_iff] using hne
  have hfilter : (group.map (fun x => x.jdsatepoch)).filter
      (fun x => decide (x < end_utc)) = group.map (fun x => x.jdsatepoch) := by
    rw [List.filter_eq_self]
    intro a ha
    obtain ⟨s, hs, rfl⟩ := List.mem_map.mp ha
    simpa using hall s hs
  set es := group.map (fun x => x.jdsatepoch) with hes_def
  have hlast := List.getLast?_eq_getLast es hes_ne
  have key : chainGroup end_utc group =
      some (es.zip ((diffs es ++ [end_utc - es.getLast hes_ne]).zip group)) := by
    unfold chainGroup
    rw [hsorted_eq, ← hes_def, hfilter, hlast]
  set D := diffs es ++ [end_utc - es.getLast hes_ne] with hD_def
  have hes_len : es.length = group.length := by
    rw [hes_def]
    exact List.length_map _ _
  have hD_len : D.length = group.length := by
    rw [hD_def, List.length_append, diffs_length, hes_len]
    simp
    omega
  have hslots_len : (es.zip (D.zip group)).length = group.length := by
    simp [List.length_zip, hes_len, hD_len]
  have hes_get : ∀ (i : ℕ) (hi : i < group.length),
      es[i]? = some ((group[i]).jdsatepoch) := by
    intro i hi
    rw [hes_def, List.getElem?_map, List.getElem?_eq_getElem hi]
    rfl
  have hmaster : ∀ (i : ℕ) (hi : i < group.length),
      ∃ d : ℚ, D[i]? = some d ∧
        (es.zip (D.zip group))[i]? = some ((group[i]).jdsatepoch, d, group[i]) := by
    intro i hi
    have hiD : i < D.length := by omega
    refine ⟨D[i], List.getElem?_eq_getElem hiD, ?_⟩
    apply List.getElem?_zip_eq_some.mpr
    refine ⟨hes_get i hi, ?_⟩
    apply List.getElem?_zip_eq_some.mpr
    exact ⟨List.getElem?_eq_getElem hiD, List.getElem?_eq_getElem hi⟩
  have hD_mid : ∀ (i : ℕ) (hi : i < group.length) (hi1 : i + 1 < group.length),
      D[i]? = some ((group[i + 1]).jdsatepoch - (group[i]).jdsatepoch) := by
    intro i hi hi1
    rw [hD_def, List.getElem?_append]
    rw [if_pos (by rw [diffs_length, hes_len]; omega)]
    exact diffs_getElem? es i _ _ (hes_get i hi) (hes_get (i + 1) hi1)
  have hb : group.length - 1 < group.length := by omega
  have hlast_val : es.getLast hes_ne = (group[group.length - 1]).jdsatepoch := by
    have hbe : es.length - 1 < es.length := by omega
    have h1 : es[es.length - 1]? = some (es.getLast hes_ne) := by
      rw [List.getElem?_eq_getElem hbe, List.getLast_eq_getElem]
    have h2 : es[es.length - 1]? = some ((group[group.length - 1]).jdsatepoch) := by
      rw [hes_len]
      exact hes_get (group.length - 1) hb
    rw [h1] at h2
    exact Option.some.inj h2
  have hD_last : D[group.length - 1]? =
      some (end_utc - (group[group.length - 1]).jdsatepoch) := by
    rw [hD_def, List.getElem?_append]
    rw [if_neg (by rw [diffs_length, hes_len]; omega)]
    rw [diffs_length, hes_len]
    have hidx : group.length - 1 - (group.length - 1) = 0 := by omega
    rw [hidx, hlast_val]
    simp
  refine ⟨es.zip (D.zip group), key, hslots_len, ?_, ?_, ?_, ?_, ?_⟩
  · -- slot i carries the i-th epoch and the i-th record
    intro i
    by_cases hi : i < group.length
    · obtain ⟨d, hDi, hz⟩ := hmaster i hi
      rw [hz, List.getElem?_eq_getElem hi]
      rfl
    · rw [List.getElem?_eq_none (by omega), List.getElem?_eq_none (by omega)]
      rfl
  · -- non-final durations are the gaps to the next epoch, and slots abut
    intro i p q hp hq
    have hi1 : i + 1 < group.length := by
      by_contra hc
      rw [List.getElem?_eq_none (by omega)] at hq
      cases hq
    have hi : i < group.length := by omega
    obtain ⟨d, hDi, hz⟩ := hmaster i hi
    obtain ⟨d', hDi', hz'⟩ := hmaster (i + 1) hi1
    rw [hp] at hz
    rw [hq] at hz'
    have hpv := Option.some.inj hz
    have hqv := Option.some.inj hz'
    have hgap := hD_mid i hi hi1
    rw [hDi] at hgap
    have hd := Option.some.inj hgap
    subst hpv
    subst hqv
    refine ⟨by simpa using hd, ?_⟩
    show (group[i]).jdsatepoch + d = (group[i + 1]).jdsatepoch
    rw [hd]
    ring
  · -- the final duration is the remaining time to the overall end
    intro p hp
    obtain ⟨d, hDi, hz⟩ := hmaster (group.length - 1) hb
    rw [hp] at hz
    have hpv := Option.some.inj hz
    rw [hDi] at hD_last
    have hd := Option.some.inj hD_last
    subst hpv
    refine ⟨by simpa using hd, ?_⟩
    show (group[group.length - 1]).jdsatepoch + d = end_utc
    rw [hd]
    ring
  · -- durations are nonnegative
    intro i p hp
    have hi : i < group.length := by
      by_contra hc
      rw [List.getElem?_eq_none (by omega)] at hp
      cases hp
    obtain ⟨d, hDi, hz⟩ := hmaster i hi
    rw [hp] at hz
    have hpv := Option.some.inj hz
    subst hpv
    show (0 : ℚ) ≤ d
    by_cases hi1 : i + 1 < group.length
    · have hgap := hD_mid i hi hi1
      rw [hDi] at hgap
      have hd := Option.some.inj hgap
      have hsle : satLE (group[i]) (group[i + 1]) :=
        List.pairwise_iff_getElem.mp hsort i (i + 1) hi hi1 (by omega)
      unfold satLE at hsle
      rw [hd]
      linarith
    · have hieq : i = group.length - 1 := by omega
      subst hieq
      rw [hDi] at hD_last
      have hd := Option.some.inj hD_last
      have hmem : group[group.length - 1] ∈ group := List.getElem_mem hb
      have hlt := hall _ hmem
      rw [hd]
      linarith
  · -- the first slot starts at the first epoch
    rw [List.head?_eq_getElem?, List.head?_eq_getElem?]
    obtain ⟨d, hDi, hz⟩ := hmaster 0 hlen_pos
    rw [hz, List.getElem?_eq_getElem hlen_pos]
    rfl

/-- Witness for C6 at a concrete sorted two-epoch group. -/
theorem chain_mode_slots_tile_witness :
    ∃ slots : List (TimeObj × ℚ × EarthSatellite),
      chainGroup 10 [⟨"A", 1, 0⟩, ⟨"A", 3, 1⟩] = some slots ∧
      slots.length = ([⟨"A", 1, 0⟩, ⟨"A", 3, 1⟩] : List EarthSatellite).length ∧
      (∀ i : ℕ, slots[i]?.map (fun p => (p.1, p.2.2)) =
        (([⟨"A", 1, 0⟩, ⟨"A", 3, 1⟩] : List EarthSatellite)[i]?).map
          (fun s => (s.jdsatepoch, s))) ∧
      (∀ (i : ℕ) (p q : TimeObj × ℚ × EarthSatellite),
        slots[i]? = some p → slots[i + 1]? = some q →
        p.2.1 = q.1 - p.1 ∧ p.1 + p.2.1 = q.1) ∧
      (∀ p : TimeObj × ℚ × EarthSatellite,
        slots[([⟨"A", 1, 0⟩, ⟨"A", 3, 1⟩] : List EarthSatellite).length - 1]? = some p →
        p.2.1 = 10 - p.1 ∧ p.1 + p.2.1 = 10) ∧
      (∀ (i : ℕ) (p : TimeObj × ℚ × EarthSatellite), slots[i]? = some p → 0 ≤ p.2.1) ∧
      slots.head?.map (fun p => p.1) =
        (([⟨"A", 1, 0⟩, ⟨"A", 3, 1⟩] : List EarthSatellite).head?).map
          (fun s => s.jdsatepoch) :=
  chain_mode_slots_tile 10 [⟨"A", 1, 0⟩, ⟨"A", 3, 1⟩] (by decide)
    (by constructor <;> simp [satLE]) (by decide)
